import Mathlib

/-!
Verification of the filename decomposition and recomposition logic of the
`appendfilename` command-line tool (source: `src/appendfilename/__init__.py`,
legacy variant `src/appendfilename.py`).

File names are modelled as `List Char`.  The two regular expressions of the
source are embedded as executable Lean functions that follow Python `re.match`
semantics exactly (leftmost match, lazy/greedy ordering, `.` not matching a
newline, `$` matching at the end of the string or just before a trailing
newline, ordered alternation with backtracking):

* `FILE_WITH_EXTENSION_REGEX = (.*?)(( -- .*)?(\.\w+?)?)$`
  is embedded as `fileWithExtensionMatch`, returning the pair
  `(group 1, group 2)` of the match, or `none` when the pattern fails.

* `WITHTIME_AND_SECONDS_PATTERN` (the date/time-stamp detector of
  smart-prepend mode) is embedded as `withtimeMatch`, returning
  `(group 1, the captured separator character, the final (.+) group)`.

The per-file driver `handle_file`, the symlink wrapper
`handle_file_and_symlink_source_if_found` and the error bookkeeping of `main`
are embedded as well; a Python exception raised by them is modelled with
`Except`.  Only file names are tracked (the directory prefix `path.parent`
carried by the source is the same on both sides of every rename and is
irrelevant to the name computation).
-/

/-- Word character of the Python `\w` class (ASCII range, which covers every
input the claims mention). -/
def isWordChar (c : Char) : Bool :=
  c.isAlphanum || c = '_'

/-- Drop a final newline: the Python `$` anchor matches at the end of the
string or just before a trailing newline, and no token of the pattern can
consume a newline, so a successful suffix-group match covers exactly the
input minus a trailing newline. -/
def stripTrailingNewline (r : List Char) : List Char :=
  if r.getLast? = some '\n' then r.dropLast else r

/-- Test for the shape matched by `(\.\w+?)` followed by `$`: a dot followed
by one or more word characters reaching the anchor. -/
def isDotExt (l : List Char) : Bool :=
  match l with
  | d :: w => d = '.' && !w.isEmpty && w.all isWordChar
  | [] => false

/-- Test whether the list begins with the tag separator literal `" -- "`. -/
def startsWithTagSep (l : List Char) : Bool :=
  decide (l.take 4 = [' ', '-', '-', ' '])

/-- Condition for the group `(( -- .*)?(\.\w+?)?)$` to match the whole of
`core` (the input minus any trailing newline): no token matches a newline,
and the group either is empty, or starts with `" -- "` (after which `.*`
greedily reaches the anchor), or is exactly a dot extension. -/
def suffixGroupOk (core : List Char) : Bool :=
  core.all (fun c => c != '\n') &&
    (core.isEmpty || startsWithTagSep core || isDotExt core)

/-- Match of `(( -- .*)?(\.\w+?)?)$` at a given position of the input, the
remaining input being `r`; returns the text of group 2 on success. -/
def suffixGroupMatch (r : List Char) : Option (List Char) :=
  if suffixGroupOk (stripTrailingNewline r) then some (stripTrailingNewline r)
  else none

/-- Embedding of `re.match(FILE_WITH_EXTENSION_REGEX, name)` for
`FILE_WITH_EXTENSION_REGEX = (.*?)(( -- .*)?(\.\w+?)?)$`: the lazy stem
`(.*?)` grows from the left (it cannot cross a newline), and the first
position where the suffix group reaches the anchor wins.  Returns
`(group 1, group 2)`. -/
def fileWithExtensionMatch : List Char → Option (List Char × List Char)
  | [] =>
    match suffixGroupMatch [] with
    | some suf => some ([], suf)
    | none => none
  | c :: r =>
    match suffixGroupMatch (c :: r) with
    | some suf => some ([], suf)
    | none =>
      if c = '\n' then none
      else
        match fileWithExtensionMatch r with
        | some p => some (c :: p.1, p.2)
        | none => none

/-- Index of the first occurrence of the tag separator `" -- "`. -/
def findTagSep : List Char → Option Nat
  | [] => none
  | c :: r =>
    if startsWithTagSep (c :: r) then some 0
    else (findTagSep r).map (· + 1)

/-- Character class `[12]` opening every four-digit year alternative. -/
def isYearStart (c : Char) : Bool :=
  c = '1' || c = '2'

/-- Character class `[01]` of the month's first digit. -/
def isMonthHigh (c : Char) : Bool :=
  c = '0' || c = '1'

/-- Character class `[0123]` of the day's first digit. -/
def isDayHigh (c : Char) : Bool :=
  c = '0' || c = '1' || c = '2' || c = '3'

/-- Character class `[T :_-]` opening the time portion. -/
def isTimePortionSep (c : Char) : Bool :=
  c = 'T' || c = ' ' || c = ':' || c = '_' || c = '-'

/-- Character class `[012]` of the hour's first digit. -/
def isHourHigh (c : Char) : Bool :=
  c = '0' || c = '1' || c = '2'

/-- Character class `[:.-]` between hours, minutes and seconds. -/
def isHmsSep (c : Char) : Bool :=
  c = ':' || c = '.' || c = '-'

/-- Character class `[012345]` of the first digit of minutes and seconds. -/
def isMinuteHigh (c : Char) : Bool :=
  c = '0' || c = '1' || c = '2' || c = '3' || c = '4' || c = '5'

/-- Character class `[- _.]` of the group named
`timestamp_filename_seperator` in the source: the single character accepted
between the matched time stamp and the rest of the file name. -/
def isTsFilenameSep (c : Char) : Bool :=
  c = '-' || c = ' ' || c = '_' || c = '.'

/-- Match of `[12]\d{3}-[01]\d-[0123]\d` at the front; returns the matched
text and the remaining input. -/
def matchDateFull : List Char → Option (List Char × List Char)
  | a :: b :: c :: d :: '-' :: e :: f :: '-' :: g :: h :: rest =>
    if isYearStart a && b.isDigit && c.isDigit && d.isDigit &&
        isMonthHigh e && f.isDigit && isDayHigh g && h.isDigit then
      some ([a, b, c, d, '-', e, f, '-', g, h], rest)
    else none
  | _ => none

/-- Match of the time portion `[T :_-][012]\d[:.-][012345]\d` without the
optional seconds group. -/
def matchTimeNoSec : List Char → Option (List Char × List Char)
  | a :: b :: c :: d :: e :: f :: rest =>
    if isTimePortionSep a && isHourHigh b && c.isDigit && isHmsSep d &&
        isMinuteHigh e && f.isDigit then
      some ([a, b, c, d, e, f], rest)
    else none
  | _ => none

/-- Match of the optional seconds group `[:.-][012345]\d`. -/
def matchSec : List Char → Option (List Char × List Char)
  | a :: b :: c :: rest =>
    if isHmsSep a && isMinuteHigh b && c.isDigit then
      some ([a, b, c], rest)
    else none
  | _ => none

/-- Match of `[12]\d{7}` (the `RE_YYYYMMDD` alternative). -/
def matchYYYYMMDD : List Char → Option (List Char × List Char)
  | a :: b :: c :: d :: e :: f :: g :: h :: rest =>
    if isYearStart a && b.isDigit && c.isDigit && d.isDigit && e.isDigit &&
        f.isDigit && g.isDigit && h.isDigit then
      some ([a, b, c, d, e, f, g, h], rest)
    else none
  | _ => none

/-- Match of `[12]\d{3}-[01]\d` (the `RE_YYYYdashMM` alternative). -/
def matchYYYYdashMM : List Char → Option (List Char × List Char)
  | a :: b :: c :: d :: '-' :: e :: f :: rest =>
    if isYearStart a && b.isDigit && c.isDigit && d.isDigit &&
        isMonthHigh e && f.isDigit then
      some ([a, b, c, d, '-', e, f], rest)
    else none
  | _ => none

/-- Match of `\d{6}` (the `RE_YYMMDD` alternative). -/
def matchYYMMDD : List Char → Option (List Char × List Char)
  | a :: b :: c :: d :: e :: f :: rest =>
    if a.isDigit && b.isDigit && c.isDigit && d.isDigit && e.isDigit &&
        f.isDigit then
      some ([a, b, c, d, e, f], rest)
    else none
  | _ => none

/-- Match of the tail `[- _.](.+)` of the time-stamp pattern: one separator
character of the class, then a non-empty greedy `(.+)` which, with `.` not
matching a newline and nothing following it, captures everything up to the
first newline or the end. -/
def matchSepAndRest : List Char → Option (Char × List Char)
  | [] => none
  | c :: r =>
    if isTsFilenameSep c then
      if (r.takeWhile (fun x => x != '\n')).isEmpty then none
      else some (c, r.takeWhile (fun x => x != '\n'))
    else none

/-- Attach the separator-and-rest tail to a candidate time-stamp match `d`
with remaining input `r`. -/
def tryCont (d r : List Char) : Option (List Char × Char × List Char) :=
  match matchSepAndRest r with
  | some (c, rest) => some (d, c, rest)
  | none => none

/-- Attach the tail to the result of one of the date-shape matchers. -/
def tryAlt (o : Option (List Char × List Char)) :
    Option (List Char × Char × List Char) :=
  match o with
  | some (d, r) => tryCont d r
  | none => none

/-- First-success choice, the semantics of ordered alternation and of an
optional group whose presence is tried before its absence. -/
def orElseO {α : Type} (a b : Option α) : Option α :=
  match a with
  | some x => some x
  | none => b

/-- First alternative of the time-stamp pattern: a full `YYYY-MM-DD` date
with an optional time portion with optional seconds.  Backtracking order of
the optional groups: seconds present, then absent, then no time portion at
all, each candidate followed by the separator-and-rest tail. -/
def alt1 (s : List Char) : Option (List Char × Char × List Char) :=
  match matchDateFull s with
  | none => none
  | some (d, r1) =>
    match matchTimeNoSec r1 with
    | none => tryCont d r1
    | some (t, r2) =>
      match matchSec r2 with
      | none => orElseO (tryCont (d ++ t) r2) (tryCont d r1)
      | some (sec, r3) =>
        orElseO (tryCont (d ++ t ++ sec) r3)
          (orElseO (tryCont (d ++ t) r2) (tryCont d r1))

/-- Embedding of `re.match(WITHTIME_AND_SECONDS_PATTERN, name)`: the four
date alternatives are tried in source order; on success the triple is
`(group 1, the separator character, the final (.+) group)`, exactly the
pieces the smart-prepend branch of `handle_file` uses. -/
def withtimeMatch (s : List Char) : Option (List Char × Char × List Char) :=
  orElseO (alt1 s)
    (orElseO (tryAlt (matchYYYYMMDD s))
      (orElseO (tryAlt (matchYYYYdashMM s)) (tryAlt (matchYYMMDD s))))

/-- Kind of filesystem object a processed path points at, as distinguished
by the `path.is_dir()` / `path.is_file()` tests at the top of
`handle_file`. -/
inductive FileKind
  | directory
  | missing
  | regular
deriving DecidableEq

/-- Python exceptions the embedded functions can raise. -/
inductive PyExc
  /-- The final `return num_errors, newpath_created` of `handle_file`
  reads `newpath_created`, which the dry-run branch never assigned:
  Python raises `UnboundLocalError`. -/
  | unboundLocalNewpathCreated
  /-- The symlink branch of `handle_file_and_symlink_source_if_found`
  reads the name `filename`, which is not bound anywhere in the function
  (its parameter is `filepath`): Python raises `NameError`. -/
  | nameErrorFilename
deriving DecidableEq

/-- Embedding of `handle_file(path, text, dryrun, sep, prepend,
smartprepend)`.  Returns `Except.ok (num_errors, new_name?)` for a normal
return — `(1, none)` models the error returns `(num_errors, False)` — and
`Except.error` for a raised exception.  The composed name is built exactly
as the source's f-strings build it; `path.rename` returns the new path,
modelled by the new name. -/
def handle_file (kind : FileKind) (name text : List Char) (dryrun : Bool)
    (sep : List Char) (prepend smartprepend : Bool) :
    Except PyExc (Nat × Option (List Char)) :=
  match kind with
  | .directory => .ok (1, none)
  | .missing => .ok (1, none)
  | .regular =>
    match fileWithExtensionMatch name with
    | none => .ok (1, none)
    | some (old_basename, tags_with_extension) =>
      let newpath :=
        if prepend then
          text ++ sep ++ old_basename ++ tags_with_extension
        else if smartprepend then
          match withtimeMatch name with
          | some (ts, _, rest) => ts ++ sep ++ text ++ sep ++ rest
          | none => text ++ sep ++ old_basename ++ tags_with_extension
        else
          old_basename ++ sep ++ text ++ tags_with_extension
      if dryrun then .error .unboundLocalNewpathCreated
      else .ok (0, some newpath)

/-- Source constant of the same name: symlink originals are renamed along
with the symlink. -/
def RENAME_SYMLINK_ORIGINALS_WHEN_RENAMING_SYMLINKS : Bool := true

/-- Embedding of `handle_file_and_symlink_source_if_found`.  When the path
is a non-broken symlink the body's first statement is
`old_sourcefilename = get_link_source_file(filename)`, and `filename` is
unbound (the parameter is `filepath`), so the call raises `NameError`
before looking at the link target at all; otherwise the wrapped
`handle_file` runs. -/
def handle_file_and_symlink_source_if_found (isNonbrokenSymlink : Bool)
    (kind : FileKind) (name text : List Char) (dryrun : Bool)
    (sep : List Char) (prepend smartprepend : Bool) :
    Except PyExc (Nat × Option (List Char)) :=
  if RENAME_SYMLINK_ORIGINALS_WHEN_RENAMING_SYMLINKS && isNonbrokenSymlink then
    .error .nameErrorFilename
  else
    handle_file kind name text dryrun sep prepend smartprepend

/-- Value of the local variable `num_errors` after the file loop of `main`:
each non-broken-link file executes `num_errors, new_filename = ...`,
rebinding `num_errors` to that file's own count (`some k` in the input
list), while a broken link only logs and leaves the variable untouched
(`none` in the input list).  The result `none` means the variable was never
bound. -/
def mainNumErrors (results : List (Option Nat)) : Option Nat :=
  results.foldl (fun acc r => match r with | some k => some k | none => acc) none

/-- Process exit code chosen by the tail of `main`:
`error_exit(4, ...)` when the final `num_errors` is positive, a normal exit
`0` otherwise; `none` when `num_errors` was never bound (Python would raise
`NameError` at the comparison). -/
def mainExitCode (results : List (Option Nat)) : Option Nat :=
  match mainNumErrors results with
  | some n => some (if n > 0 then 4 else 0)
  | none => none

example : fileWithExtensionMatch "test.txt".data = some ("test".data, ".txt".data) := by decide
example : fileWithExtensionMatch "a -- b -- c.txt".data = some ("a".data, " -- b -- c.txt".data) := by decide
example : fileWithExtensionMatch "test.".data = some ("test.".data, []) := by decide
example : fileWithExtensionMatch "\n".data = some ([], []) := by decide
example : fileWithExtensionMatch "a\nb".data = none := by decide
example : fileWithExtensionMatch "a\n".data = some ("a".data, []) := by decide
example : fileWithExtensionMatch "archive.tar.gz".data = some ("archive.tar".data, ".gz".data) := by decide
example : fileWithExtensionMatch "2021-12-31T18.48.22 test.txt".data = some ("2021-12-31T18.48.22 test".data, ".txt".data) := by decide
example : withtimeMatch "20211231_test.txt".data = some ("20211231".data, '_', "test.txt".data) := by decide
example : withtimeMatch "20211231:test.txt".data = none := by decide
example : withtimeMatch "2021-12-31Xtest".data = some ("2021-12".data, '-', "31Xtest".data) := by decide
example : withtimeMatch "2021-12-31T18.48.22".data = some ("2021-12-31T18.48".data, '.', "22".data) := by decide
example : withtimeMatch "2021-12-31T18.48.22 test.txt".data = some ("2021-12-31T18.48.22".data, ' ', "test.txt".data) := by decide
example : withtimeMatch "211231_test.txt".data = some ("211231".data, '_', "test.txt".data) := by decide
example : withtimeMatch "2021-12-31_".data = some ("2021-12".data, '-', "31_".data) := by decide
example : withtimeMatch "20211231_a\nb".data = some ("20211231".data, '_', "a".data) := by decide

lemma newline_mem_of_getLast {r : List Char} (h : r.getLast? = some '\n') :
    '\n' ∈ r := by
  have h2 := List.dropLast_append_getLast? '\n' (Option.mem_def.mpr h)
  rw [← h2]
  exact List.mem_append_right _ (List.mem_singleton_self _)

lemma stripTrailingNewline_eq_self {r : List Char} (h : '\n' ∉ r) :
    stripTrailingNewline r = r := by
  unfold stripTrailingNewline
  rw [if_neg]
  intro hl
  exact h (newline_mem_of_getLast hl)

lemma suffixGroupOk_no_newline {l : List Char} (h : suffixGroupOk l = true) :
    '\n' ∉ l := by
  intro hm
  unfold suffixGroupOk at h
  rw [Bool.and_eq_true] at h
  have := List.all_eq_true.mp h.1 _ hm
  simp at this

lemma suffixGroupOk_cases {l : List Char} (h : suffixGroupOk l = true) :
    l = [] ∨ startsWithTagSep l = true ∨ isDotExt l = true := by
  unfold suffixGroupOk at h
  rw [Bool.and_eq_true, Bool.or_eq_true, Bool.or_eq_true] at h
  rcases h.2 with (h2 | h2) | h2
  · exact Or.inl (List.isEmpty_iff.mp h2)
  · exact Or.inr (Or.inl h2)
  · exact Or.inr (Or.inr h2)

lemma suffixGroupOk_of {l : List Char} (hn : '\n' ∉ l)
    (h : l = [] ∨ startsWithTagSep l = true ∨ isDotExt l = true) :
    suffixGroupOk l = true := by
  unfold suffixGroupOk
  rw [Bool.and_eq_true, Bool.or_eq_true, Bool.or_eq_true]
  refine ⟨List.all_eq_true.mpr fun x hx => bne_iff_ne.mpr fun hh => hn (hh ▸ hx), ?_⟩
  rcases h with h | h | h
  · exact Or.inl (Or.inl (List.isEmpty_iff.mpr h))
  · exact Or.inl (Or.inr h)
  · exact Or.inr h

lemma suffixGroupMatch_eq_some {r : List Char} (hn : '\n' ∉ r)
    (h : r = [] ∨ startsWithTagSep r = true ∨ isDotExt r = true) :
    suffixGroupMatch r = some r := by
  unfold suffixGroupMatch
  rw [stripTrailingNewline_eq_self hn, if_pos (suffixGroupOk_of hn h)]

lemma suffixGroupMatch_eq_none {r : List Char} (hn : '\n' ∉ r)
    (h1 : r ≠ []) (h2 : startsWithTagSep r = false) (h3 : isDotExt r = false) :
    suffixGroupMatch r = none := by
  unfold suffixGroupMatch
  rw [stripTrailingNewline_eq_self hn, if_neg]
  intro hok
  rcases suffixGroupOk_cases hok with h | h | h
  · exact h1 h
  · rw [h2] at h; cases h
  · rw [h3] at h; cases h

lemma suffixGroupMatch_some_inv {r suf : List Char} (hn : '\n' ∉ r)
    (h : suffixGroupMatch r = some suf) : suf = r := by
  unfold suffixGroupMatch at h
  rw [stripTrailingNewline_eq_self hn] at h
  by_cases hok : suffixGroupOk r = true
  · rw [if_pos hok] at h
    exact (Option.some_inj.mp h).symm
  · rw [if_neg hok] at h
    cases h

lemma suffixGroupMatch_none_of_strip_newline {r : List Char}
    (h : '\n' ∈ stripTrailingNewline r) : suffixGroupMatch r = none := by
  have hnot : ¬ suffixGroupOk (stripTrailingNewline r) = true :=
    fun hok => suffixGroupOk_no_newline hok h
  unfold suffixGroupMatch
  rw [if_neg hnot]

lemma newline_mem_strip_of_mem_dropLast {r : List Char}
    (h : '\n' ∈ r.dropLast) : '\n' ∈ stripTrailingNewline r := by
  unfold stripTrailingNewline
  by_cases hl : r.getLast? = some '\n'
  · rw [if_pos hl]; exact h
  · rw [if_neg hl]; exact (List.dropLast_sublist r).subset h

lemma fwem_cons_some {c : Char} {r suf : List Char}
    (h : suffixGroupMatch (c :: r) = some suf) :
    fileWithExtensionMatch (c :: r) = some ([], suf) := by
  simp only [fileWithExtensionMatch, h]

lemma fwem_cons_step {c : Char} {r st suf : List Char}
    (h : suffixGroupMatch (c :: r) = none) (hc : c ≠ '\n')
    (hr : fileWithExtensionMatch r = some (st, suf)) :
    fileWithExtensionMatch (c :: r) = some (c :: st, suf) := by
  simp only [fileWithExtensionMatch, h, if_neg hc, hr]

lemma fwem_cons_step_none {c : Char} {r : List Char}
    (h : suffixGroupMatch (c :: r) = none) (hc : c ≠ '\n')
    (hr : fileWithExtensionMatch r = none) :
    fileWithExtensionMatch (c :: r) = none := by
  simp only [fileWithExtensionMatch, h, if_neg hc, hr]

lemma fwem_cons_newline {c : Char} {r : List Char}
    (h : suffixGroupMatch (c :: r) = none) (hc : c = '\n') :
    fileWithExtensionMatch (c :: r) = none := by
  simp only [fileWithExtensionMatch, h, if_pos hc]

lemma startsWithTagSep_take {l : List Char} (h : startsWithTagSep l = true) :
    l.take 4 = [' ', '-', '-', ' '] := by
  unfold startsWithTagSep at h
  exact of_decide_eq_true h

lemma space_mem_of_startsWithTagSep {l : List Char}
    (h : startsWithTagSep l = true) : ' ' ∈ l := by
  have hm : ' ' ∈ l.take 4 := by
    rw [startsWithTagSep_take h]
    exact List.mem_cons_self _ _
  exact List.take_subset _ _ hm

lemma isDotExt_shape {l : List Char} (h : isDotExt l = true) :
    ∃ w, l = '.' :: w ∧ w ≠ [] ∧ w.all isWordChar = true := by
  cases l with
  | nil => exact absurd h (by decide)
  | cons d w =>
    unfold isDotExt at h
    rw [Bool.and_eq_true, Bool.and_eq_true] at h
    obtain ⟨⟨h1, h2⟩, h3⟩ := h
    refine ⟨w, ?_, ?_, h3⟩
    · rw [of_decide_eq_true h1]
    · intro hw
      rw [hw] at h2
      cases h2
  
lemma isDotExt_intro {w : List Char} (h1 : w ≠ []) (h2 : w.all isWordChar = true) :
    isDotExt ('.' :: w) = true := by
  unfold isDotExt
  rw [Bool.and_eq_true, Bool.and_eq_true]
  refine ⟨⟨by simp, ?_⟩, h2⟩
  cases w with
  | nil => exact absurd rfl h1
  | cons x xs => rfl

lemma isDotExt_false_of_bad {c x : Char} {r : List Char}
    (hx : x ∈ r) (hw : isWordChar x = false) : isDotExt (c :: r) = false := by
  by_contra hne
  rw [Bool.not_eq_false] at hne
  obtain ⟨w, hw', -, hall⟩ := isDotExt_shape hne
  obtain ⟨-, hrw⟩ := List.cons_eq_cons.mp hw'
  have := List.all_eq_true.mp hall x (hrw ▸ hx)
  rw [hw] at this
  cases this

lemma findTagSep_space {r : List Char} {k : Nat} (h : findTagSep r = some k) :
    ' ' ∈ r := by
  induction r generalizing k with
  | nil => simp [findTagSep] at h
  | cons c r ih =>
    cases hs : startsWithTagSep (c :: r) with
    | true => exact space_mem_of_startsWithTagSep hs
    | false =>
      rw [findTagSep, if_neg (by rw [hs]; exact Bool.false_ne_true)] at h
      obtain ⟨k', hk', -⟩ := Option.map_eq_some'.mp h
      exact List.mem_cons_of_mem _ (ih hk')

lemma fwem_none_of_inner_newline (s : List Char) (h : '\n' ∈ s.dropLast) :
    fileWithExtensionMatch s = none := by
  induction s with
  | nil => simp at h
  | cons c r ih =>
    cases r with
    | nil => simp at h
    | cons d r' =>
      rw [List.dropLast_cons₂] at h
      have hm : suffixGroupMatch (c :: d :: r') = none :=
        suffixGroupMatch_none_of_strip_newline
          (newline_mem_strip_of_mem_dropLast (by rw [List.dropLast_cons₂]; exact h))
      rcases List.mem_cons.mp h with hc | hr
      · exact fwem_cons_newline hm hc.symm
      · by_cases hc : c = '\n'
        · exact fwem_cons_newline hm hc
        · exact fwem_cons_step_none hm hc (ih hr)

lemma fwem_isSome_of_no_inner_newline (s : List Char)
    (h : '\n' ∉ s.dropLast) : (fileWithExtensionMatch s).isSome = true := by
  induction s with
  | nil => decide
  | cons c r ih =>
    rcases hm : suffixGroupMatch (c :: r) with _ | suf
    · cases r with
      | nil =>
        have hc : c ≠ '\n' := by
          intro hc
          subst hc
          rw [show suffixGroupMatch ['\n'] = some [] from by decide] at hm
          cases hm
        rw [fwem_cons_step hm hc (show fileWithExtensionMatch [] = some ([], [])
          from by decide)]
        rfl
      | cons d r' =>
        rw [List.dropLast_cons₂] at h
        have hc : c ≠ '\n' := fun hc => h (hc ▸ List.mem_cons_self c _)
        have h' : '\n' ∉ (d :: r').dropLast := fun hx => h (List.mem_cons_of_mem _ hx)
        have hsome := ih h'
        rcases hps : fileWithExtensionMatch (d :: r') with _ | p
        · rw [hps] at hsome; cases hsome
        · obtain ⟨st, suf⟩ := p
          rw [fwem_cons_step hm hc hps]
          rfl
    · rw [fwem_cons_some hm]
      rfl

lemma fwem_tagsep_split (s : List Char) (k : Nat) (hn : '\n' ∉ s)
    (hf : findTagSep s = some k) :
    fileWithExtensionMatch s = some (s.take k, s.drop k) := by
  induction s generalizing k with
  | nil => simp [findTagSep] at hf
  | cons c r ih =>
    have hc2 : ('\n' : Char) ≠ c ∧ '\n' ∉ r := by
      rw [List.mem_cons] at hn
      push_neg at hn
      exact hn
    cases hs : startsWithTagSep (c :: r) with
    | true =>
      have hk : k = 0 := by
        rw [findTagSep, if_pos hs] at hf
        exact (Option.some_inj.mp hf).symm
      subst hk
      rw [fwem_cons_some (suffixGroupMatch_eq_some hn (Or.inr (Or.inl hs)))]
      rfl
    | false =>
      rw [findTagSep, if_neg (by rw [hs]; exact Bool.false_ne_true)] at hf
      obtain ⟨k', hk', hkk⟩ := Option.map_eq_some'.mp hf
      subst hkk
      have hsp : ' ' ∈ r := findTagSep_space hk'
      have hsm : suffixGroupMatch (c :: r) = none :=
        suffixGroupMatch_eq_none hn (List.cons_ne_nil _ _) hs
          (isDotExt_false_of_bad hsp (by decide))
      rw [fwem_cons_step hsm (fun he => hc2.1 he.symm) (ih k' hc2.2 hk')]
      rfl

lemma newline_not_mem_ext {a w : List Char} (hna : '\n' ∉ a)
    (hww : w.all isWordChar = true) : '\n' ∉ a ++ '.' :: w := by
  intro hm
  rcases List.mem_append.mp hm with h | h
  · exact hna h
  · rcases List.mem_cons.mp h with h | h
    · exact absurd h (by decide)
    · have := List.all_eq_true.mp hww _ h
      rw [show isWordChar '\n' = false from by decide] at this
      cases this

lemma fwem_ext_split (a w : List Char) (hna : '\n' ∉ a)
    (hf : findTagSep (a ++ '.' :: w) = none) (hw0 : w ≠ [])
    (hww : w.all isWordChar = true) :
    fileWithExtensionMatch (a ++ '.' :: w) = some (a, '.' :: w) := by
  induction a with
  | nil =>
    rw [List.nil_append]
    have hn : '\n' ∉ '.' :: w := by
      have := newline_not_mem_ext (a := []) (List.not_mem_nil _) hww
      rwa [List.nil_append] at this
    rw [fwem_cons_some (suffixGroupMatch_eq_some hn
      (Or.inr (Or.inr (isDotExt_intro hw0 hww))))]
  | cons c a' ih =>
    rw [List.cons_append]
    rw [List.cons_append] at hf
    have hnfull : '\n' ∉ c :: (a' ++ '.' :: w) := by
      have := newline_not_mem_ext hna hww
      rwa [List.cons_append] at this
    have hst : startsWithTagSep (c :: (a' ++ '.' :: w)) = false := by
      cases hb : startsWithTagSep (c :: (a' ++ '.' :: w)) with
      | false => rfl
      | true =>
        rw [findTagSep, if_pos hb] at hf
        cases hf
    have hftail : findTagSep (a' ++ '.' :: w) = none := by
      rw [findTagSep, if_neg (by rw [hst]; exact Bool.false_ne_true)] at hf
      exact Option.map_eq_none'.mp hf
    have hna2 : ('\n' : Char) ≠ c ∧ '\n' ∉ a' := by
      rw [List.mem_cons] at hna
      push_neg at hna
      exact hna
    have hdot : isDotExt (c :: (a' ++ '.' :: w)) = false :=
      isDotExt_false_of_bad (x := '.')
        (List.mem_append_right a' (List.mem_cons_self _ _)) (by decide)
    have hsm : suffixGroupMatch (c :: (a' ++ '.' :: w)) = none :=
      suffixGroupMatch_eq_none hnfull (List.cons_ne_nil _ _) hst hdot
    rw [fwem_cons_step hsm (fun he => hna2.1 he.symm) (ih hna2.2 hftail)]

lemma orElseO_eq_some {α : Type} {a b : Option α} {x : α}
    (h : orElseO a b = some x) : a = some x ∨ b = some x := by
  cases a with
  | some y => exact Or.inl h
  | none => exact Or.inr h

lemma matchSepAndRest_class {r : List Char} {c : Char} {rest : List Char}
    (h : matchSepAndRest r = some (c, rest)) : isTsFilenameSep c = true := by
  cases r with
  | nil => cases h
  | cons a r' =>
    simp only [matchSepAndRest] at h
    split at h
    next ha =>
      split at h
      next => cases h
      next =>
        injection h with h'
        rw [Prod.mk.injEq] at h'
        exact h'.1 ▸ ha
    next => cases h

lemma tryCont_class {d r ts : List Char} {c : Char} {rest : List Char}
    (h : tryCont d r = some (ts, c, rest)) : isTsFilenameSep c = true := by
  unfold tryCont at h
  split at h
  next c' rest' hm =>
    injection h with h'
    rw [Prod.mk.injEq, Prod.mk.injEq] at h'
    exact h'.2.1 ▸ matchSepAndRest_class hm
  next => cases h

lemma tryAlt_class {o : Option (List Char × List Char)} {ts : List Char}
    {c : Char} {rest : List Char}
    (h : tryAlt o = some (ts, c, rest)) : isTsFilenameSep c = true := by
  unfold tryAlt at h
  split at h
  next => exact tryCont_class h
  next => cases h

lemma alt1_class {s ts : List Char} {c : Char} {rest : List Char}
    (h : alt1 s = some (ts, c, rest)) : isTsFilenameSep c = true := by
  unfold alt1 at h
  split at h
  next => cases h
  next =>
    split at h
    next => exact tryCont_class h
    next =>
      split at h
      next =>
        rcases orElseO_eq_some h with h2 | h2
        · exact tryCont_class h2
        · exact tryCont_class h2
      next =>
        rcases orElseO_eq_some h with h2 | h2
        · exact tryCont_class h2
        · rcases orElseO_eq_some h2 with h3 | h3
          · exact tryCont_class h3
          · exact tryCont_class h3

lemma withtimeMatch_class {s ts : List Char} {c : Char} {rest : List Char}
    (h : withtimeMatch s = some (ts, c, rest)) : isTsFilenameSep c = true := by
  unfold withtimeMatch at h
  rcases orElseO_eq_some h with h1 | h1
  · exact alt1_class h1
  · rcases orElseO_eq_some h1 with h2 | h2
    · exact tryAlt_class h2
    · rcases orElseO_eq_some h2 with h3 | h3
      · exact tryAlt_class h3
      · exact tryAlt_class h3

/-- Claim C1, counterexample: for the name consisting of a single newline the
pattern does match (the `$` anchor sits before the trailing newline), but the
two groups concatenate to the empty string, not to the original name — the
parse drops the newline, so losslessness fails for names containing newline
characters. -/
theorem c1_newline_lossy :
    fileWithExtensionMatch "\n".data = some ([], []) ∧
    ([] ++ [] : List Char) ≠ "\n".data := by
  exact ⟨by decide, by decide⟩

/-- Claim C1 (amended): for every name without any newline character the
pattern matches and the two groups concatenate exactly to the original name:
parsing is lossless on newline-free names. -/
theorem c1_parse_lossless (s : List Char) (h : '\n' ∉ s) :
    ∃ st suf, fileWithExtensionMatch s = some (st, suf) ∧ st ++ suf = s := by
  induction s with
  | nil => exact ⟨[], [], by decide, rfl⟩
  | cons c r ih =>
    have hc2 : ('\n' : Char) ≠ c ∧ '\n' ∉ r := by
      rw [List.mem_cons] at h
      push_neg at h
      exact h
    rcases hm : suffixGroupMatch (c :: r) with _ | suf
    · obtain ⟨st, suf, hps, hcat⟩ := ih hc2.2
      exact ⟨c :: st, suf, fwem_cons_step hm (fun he => hc2.1 he.symm) hps,
        by rw [List.cons_append, hcat]⟩
    · have hsuf : suf = c :: r := suffixGroupMatch_some_inv h hm
      subst hsuf
      exact ⟨[], c :: r, fwem_cons_some hm, rfl⟩

/-- Claim C1 witness: losslessness evaluated on a concrete newline-free
name. -/
theorem c1_parse_lossless_witness :
    ∃ st suf,
      fileWithExtensionMatch "2021-12-31T18.48.22 test.txt".data = some (st, suf) ∧
      st ++ suf = "2021-12-31T18.48.22 test.txt".data :=
  c1_parse_lossless "2021-12-31T18.48.22 test.txt".data (by decide)

/-- Claim C2: append mode composes exactly `stem + separator + text + suffix`
from the parser's split, for any name the parser matches; in particular the
two examples of the claim. -/
theorem c2_append_compose :
    (∀ name st suf text sep : List Char,
      fileWithExtensionMatch name = some (st, suf) →
      handle_file .regular name text false sep false false =
        .ok (0, some (st ++ sep ++ text ++ suf))) ∧
    handle_file .regular "2021-12-31T18.48.22 test.txt".data "book".data false
        " ".data false false =
      .ok (0, some "2021-12-31T18.48.22 test book.txt".data) ∧
    handle_file .regular "report -- draft final.pdf".data "new".data false
        " ".data false false =
      .ok (0, some "report new -- draft final.pdf".data) := by
  refine ⟨?_, rfl, rfl⟩
  intro name st suf text sep h
  simp [handle_file, h]

/-- Claim C2 witness: the generic append equation evaluated on a concrete
name, discharging the parser hypothesis by computation. -/
theorem c2_append_compose_witness :
    handle_file .regular "test.txt".data "book".data false "_".data false false =
      .ok (0, some ("test".data ++ "_".data ++ "book".data ++ ".txt".data)) :=
  c2_append_compose.1 "test.txt".data "test".data ".txt".data "book".data
    "_".data (by decide)

/-- Claim C3, counterexample: the name `20211231_a\nb` begins with the
recognized time-stamp `20211231`, one separator `_` and the non-empty
remainder `a\nb`, yet smart-prepend mode does not produce
`timestamp + sep + text + sep + remainder`: the filename-decomposition
pattern fails on the embedded newline, so `handle_file` returns the error
pair `(1, False)` without composing anything. -/
theorem c3_smartprepend_newline_failure :
    handle_file .regular "20211231_a\nb".data "book".data false " ".data
        false true = .ok (1, none) ∧
    (Except.ok (1, none) : Except PyExc (Nat × Option (List Char))) ≠
      .ok (0, some "20211231 book a\nb".data) := by
  refine ⟨rfl, ?_⟩
  intro hEq
  injection hEq with h'
  rw [Prod.mk.injEq] at h'
  exact absurd h'.1 (by decide)

/-- Claim C3 (amended): provided the filename-decomposition pattern matches
the name, smart-prepend composes `timestamp + sep + text + sep + rest` from
the detector's groups (the time stamp's own separator character is dropped,
and `rest` is the detector's final group: the remainder truncated at the
first newline); the claim's example `20211231_test.txt` gives
`20211231 book test.txt`; and when no time-stamp shape matches, the mode
falls back to the prepend composition `text + sep + stem + suffix`. -/
theorem c3_smartprepend_compose :
    (∀ (name : List Char) (p : List Char × List Char) (ts : List Char)
        (c : Char) (rest text sep : List Char),
      fileWithExtensionMatch name = some p →
      withtimeMatch name = some (ts, c, rest) →
      handle_file .regular name text false sep false true =
        .ok (0, some (ts ++ sep ++ text ++ sep ++ rest))) ∧
    handle_file .regular "20211231_test.txt".data "book".data false " ".data
        false true = .ok (0, some "20211231 book test.txt".data) ∧
    (∀ name st suf text sep : List Char,
      withtimeMatch name = none →
      fileWithExtensionMatch name = some (st, suf) →
      handle_file .regular name text false sep false true =
        .ok (0, some (text ++ sep ++ st ++ suf))) := by
  refine ⟨?_, rfl, ?_⟩
  · intro name p ts c rest text sep hp hw
    obtain ⟨st, suf⟩ := p
    simp [handle_file, hp, hw]
  · intro name st suf text sep hw hp
    simp [handle_file, hp, hw]

/-- Claim C3 witness: the smart-prepend equation evaluated on a concrete
name carrying a full date-and-time stamp, discharging both hypotheses by
computation. -/
theorem c3_smartprepend_compose_witness :
    handle_file .regular "2021-12-31 test.txt".data "book".data false " ".data
        false true =
      .ok (0, some ("2021-12-31".data ++ " ".data ++ "book".data ++ " ".data ++
        "test.txt".data)) :=
  c3_smartprepend_compose.1 "2021-12-31 test.txt".data
    ("2021-12-31 test".data, ".txt".data) "2021-12-31".data ' '
    "test.txt".data "book".data " ".data (by decide) (by decide)

/-- Claim C4, counterexample: for `a -- b -- c.txt`, which contains two
occurrences of `" -- "`, the suffix begins at the FIRST occurrence — the lazy
stem `(.*?)` takes the earliest split point — not at the last occurrence as
the claim states. -/
theorem c4_first_not_last :
    fileWithExtensionMatch "a -- b -- c.txt".data =
      some ("a".data, " -- b -- c.txt".data) ∧
    fileWithExtensionMatch "a -- b -- c.txt".data ≠
      some ("a -- b".data, " -- c.txt".data) := by
  exact ⟨by decide, by decide⟩

/-- Claim C4 (amended): for every newline-free name containing the tag
separator `" -- "` the split point is at the FIRST occurrence of the tag
separator (no following extension is required), the suffix running from
there to the end; and when no tag separator is present the split is at the
last extension: a final `.` followed only by word characters starts the
suffix. -/
theorem c4_split_point :
    (∀ (s : List Char) (k : Nat), '\n' ∉ s → findTagSep s = some k →
      fileWithExtensionMatch s = some (s.take k, s.drop k)) ∧
    (∀ a w : List Char, '\n' ∉ a → findTagSep (a ++ '.' :: w) = none →
      w ≠ [] → w.all isWordChar = true →
      fileWithExtensionMatch (a ++ '.' :: w) = some (a, '.' :: w)) :=
  ⟨fwem_tagsep_split, fwem_ext_split⟩

/-- Claim C4 witness: both amended split rules evaluated on concrete names —
the first `" -- "` occurrence (index 1 in `a -- b -- c.txt`) and the last
extension of `archive.tar.gz`. -/
theorem c4_split_point_witness :
    fileWithExtensionMatch "a -- b -- c.txt".data =
      some (("a -- b -- c.txt".data).take 1, ("a -- b -- c.txt".data).drop 1) ∧
    fileWithExtensionMatch ("archive.tar".data ++ '.' :: "gz".data) =
      some ("archive.tar".data, '.' :: "gz".data) :=
  ⟨c4_split_point.1 "a -- b -- c.txt".data 1 (by decide) (by decide),
   c4_split_point.2 "archive.tar".data "gz".data (by decide) (by decide)
     (by decide) (by decide)⟩

/-- Claim C5, counterexample: a time stamp followed by a colon or by `T` is
NOT detected — the separator class `[- _.]` contains neither `:` nor `T`, so
the whole pattern fails on `20211231:test.txt` and `20211231Ttest.txt`. -/
theorem c5_colon_and_t_rejected :
    withtimeMatch "20211231:test.txt".data = none ∧
    withtimeMatch "20211231Ttest.txt".data = none := by
  exact ⟨by decide, by decide⟩

/-- Claim C5 (amended): the single character captured as the
timestamp-filename separator is always one of exactly FOUR characters —
hyphen, space, underscore, or dot (`[- _.]`); colon and `T` are not in the
class.  Each of the four is indeed accepted, witnessed on concrete names. -/
theorem c5_separator_class :
    (∀ (s ts : List Char) (c : Char) (rest : List Char),
      withtimeMatch s = some (ts, c, rest) →
      (c = '-' ∨ c = ' ' ∨ c = '_' ∨ c = '.')) ∧
    withtimeMatch "20211231 test.txt".data =
      some ("20211231".data, ' ', "test.txt".data) ∧
    withtimeMatch "20211231_test.txt".data =
      some ("20211231".data, '_', "test.txt".data) ∧
    withtimeMatch "20211231-test.txt".data =
      some ("20211231".data, '-', "test.txt".data) ∧
    withtimeMatch "20211231.test.txt".data =
      some ("20211231".data, '.', "test.txt".data) := by
  refine ⟨?_, by decide, by decide, by decide, by decide⟩
  intro s ts c rest h
  have hcl := withtimeMatch_class h
  unfold isTsFilenameSep at hcl
  rw [Bool.or_eq_true, Bool.or_eq_true, Bool.or_eq_true] at hcl
  rcases hcl with ((h1 | h1) | h1) | h1
  · exact Or.inl (of_decide_eq_true h1)
  · exact Or.inr (Or.inl (of_decide_eq_true h1))
  · exact Or.inr (Or.inr (Or.inl (of_decide_eq_true h1)))
  · exact Or.inr (Or.inr (Or.inr (of_decide_eq_true h1)))

/-- Claim C5 witness: the separator-class property applied at a concrete
name whose separator is an underscore. -/
theorem c5_separator_class_witness :
    ('_' : Char) = '-' ∨ ('_' : Char) = ' ' ∨ ('_' : Char) = '_' ∨
      ('_' : Char) = '.' :=
  c5_separator_class.1 "20211231_test.txt".data "20211231".data '_'
    "test.txt".data (by decide)

/-- Claim C6, counterexample: the filename-decomposition pattern returns no
match at all for the name `a\nb` — a file name with an embedded newline —
so the ParseError branch of `handle_file` is reachable, not dead code. -/
theorem c6_match_fails_on_inner_newline :
    fileWithExtensionMatch "a\nb".data = none := by decide

/-- Claim C6 (amended): the pattern matches exactly the names in which no
newline occurs before the last character; for any other name `re.match`
returns `None` and the per-file handler takes its component-extraction error
path, as it does on `a\nb` where it returns the error pair `(1, False)`. -/
theorem c6_match_characterization :
    (∀ s : List Char,
      (fileWithExtensionMatch s).isSome = true ↔ '\n' ∉ s.dropLast) ∧
    handle_file .regular "a\nb".data "book".data false " ".data false false =
      .ok (1, none) := by
  refine ⟨?_, rfl⟩
  intro s
  constructor
  · intro hs
    by_contra hmem
    rw [fwem_none_of_inner_newline s hmem] at hs
    cases hs
  · exact fwem_isSome_of_no_inner_newline s

/-- Claim C7, counterexample: for the name `test.` the parser keeps the
trailing dot in the STEM and returns an empty suffix — not stem `test` with
suffix `.` as the claim states (the group `(\.\w+?)` needs at least one word
character after the dot, so it cannot capture a bare dot). -/
theorem c7_trailing_dot_in_stem :
    fileWithExtensionMatch "test.".data = some ("test.".data, []) ∧
    fileWithExtensionMatch "test.".data ≠ some ("test".data, ".".data) := by
  exact ⟨by decide, by decide⟩

/-- Claim C7 (amended): for the name `test.` the parser returns stem
`test.` (the dot stays in the stem) and the empty suffix, and appending
`book` with separator a space therefore yields `test. book` — the behaviour
the repository's own test expects. -/
theorem c7_trailing_dot :
    fileWithExtensionMatch "test.".data = some ("test.".data, ([] : List Char)) ∧
    handle_file .regular "test.".data "book".data false " ".data false false =
      .ok (0, some "test. book".data) :=
  ⟨by decide, rfl⟩

/-- Claim C8: per-file error counts are NOT aggregated — the loop in `main`
rebinds `num_errors` on every file, so only the last file's count reaches
the exit check.  In the two-file batch below, the first file is a directory
(one error, return pair `(1, False)`) and the second a regular file that is
renamed successfully (zero errors), yet the run ends with `num_errors = 0`
and exit code `0`, not the nonzero status the claim requires. -/
theorem c8_errors_not_aggregated :
    handle_file .directory "somedir".data "book".data false " ".data
        false false = .ok (1, none) ∧
    handle_file .regular "test.txt".data "book".data false " ".data
        false false = .ok (0, some "test book.txt".data) ∧
    mainNumErrors [some 1, some 0] = some 0 ∧
    mainExitCode [some 1, some 0] = some 0 :=
  ⟨rfl, rfl, rfl, rfl⟩

/-- Claim C9: whenever the processed path is a non-broken symbolic link, the
wrapper's symlink branch raises `NameError` (its body reads the unbound name
`filename`; the parameter is `filepath`), so the link target is never renamed
and the link itself is never processed — for every input, not only for links
whose target shares the base name. -/
theorem c9_symlink_branch_raises (kind : FileKind) (name text sep : List Char)
    (dryrun prepend smartprepend : Bool) :
    handle_file_and_symlink_source_if_found true kind name text dryrun sep
      prepend smartprepend = .error .nameErrorFilename := by
  simp [handle_file_and_symlink_source_if_found,
    RENAME_SYMLINK_ORIGINALS_WHEN_RENAMING_SYMLINKS]

/-- Claim C10, counterexample: called on an existing regular file named
`a\nb` with non-empty text and `dryrun=True`, `handle_file` RETURNS NORMALLY
with the pair `(1, False)`: the decomposition pattern fails on the embedded
newline and the function takes its early error return before ever reaching
the dry-run logging or the final return statement. -/
theorem c10_dryrun_normal_return_on_newline :
    handle_file .regular "a\nb".data "book".data true " ".data false false =
      .ok (1, none) := rfl

/-- Claim C10 (amended): for every existing regular file whose name the
decomposition pattern matches, and in every mode, a dry run never returns
normally: the final `return num_errors, newpath_created` reads a variable
assigned only in the non-dry-run branch, raising `UnboundLocalError`. -/
theorem c10_dryrun_unbound_local (name : List Char) (p : List Char × List Char)
    (text sep : List Char) (prepend smartprepend : Bool)
    (h : fileWithExtensionMatch name = some p) :
    handle_file .regular name text true sep prepend smartprepend =
      .error .unboundLocalNewpathCreated := by
  obtain ⟨st, suf⟩ := p
  simp [handle_file, h]

/-- Claim C10 witness: the dry-run `UnboundLocalError` evaluated on a
concrete regular file name, discharging the parser hypothesis by
computation. -/
theorem c10_dryrun_unbound_local_witness :
    handle_file .regular "test.txt".data "book".data true " ".data false false =
      .error .unboundLocalNewpathCreated :=
  c10_dryrun_unbound_local "test.txt".data ("test".data, ".txt".data)
    "book".data " ".data false false (by decide)
